import Mathlib

/-!
Verification development for the Collectivist collection-indexing engine.

The Python source is shallowly embedded: Python dataclass-style records become
Lean structures, YAML/JSON values become the inductive `PyVal`, the LLM and the
filesystem are oracles passed in as explicit arguments, and exceptions become
`Option`/`Except` results.  Every definition mirrors a named function of the
source tree (the file and function are cited in each doc comment).
-/

/-- Untyped Python/YAML/JSON values, as produced by `yaml.safe_load` and
`json.loads`: strings, integers, booleans, `None`, lists and dicts. -/
inductive PyVal where
  | str (s : String)
  | int (n : Int)
  | bool (b : Bool)
  | none
  | list (xs : List PyVal)
  | dict (fields : List (String × PyVal))

/-- Python `dict.get(k, default)`: the value of the first field named `k`, or the
default when the key is absent. -/
def dictGetD (fields : List (String × PyVal)) (k : String) (default : PyVal) : PyVal :=
  match fields.find? (fun p => p.1 = k) with
  | some p => p.2
  | Option.none => default

/-- One indexed unit, mirroring `CollectionItem` of `plugin_interface.py`
(fields `short_name`, `type`, `size`, `created`, `modified`, `accessed`,
`path`, `description`, `category`, `metadata`). -/
structure CollectionItem where
  short_name : String
  type : String
  size : Int
  created : String
  modified : String
  accessed : String
  path : String
  description : Option String
  category : Option String
  metadata : List (String × PyVal)

/-- The predicate selecting items for the describer work list
(`describer.py` line 273: `item.description is None or item.description == ''`). -/
def needsDescription (it : CollectionItem) : Bool :=
  match it.description with
  | Option.none => true
  | some s => s = ""

/-- One successfully completed description task: the worker's item path and the
`description`/`category` pair it produced. -/
structure DescResult where
  path : String
  description : String
  category : String
deriving DecidableEq

/-- Outcome of one worker task as seen by the completion loop of
`describe_collection`: a success carries its result, a failure only the item
(failures are reported but never merged or saved). -/
inductive TaskOutcome where
  | success (r : DescResult)
  | failure (path : String)
deriving DecidableEq

/-- The merge step of `describer.py` lines 337-341: scan the shared item list,
update `description` and `category` of the FIRST item whose `path` matches the
result, then `break`. -/
def mergeResult (items : List CollectionItem) (r : DescResult) : List CollectionItem :=
  match items with
  | [] => []
  | it :: rest =>
    if it.path = r.path then
      { it with description := some r.description, category := some r.category } :: rest
    else
      it :: mergeResult rest r

/-- One iteration of the `as_completed` loop: failures leave the shared list
untouched, successes merge their result. -/
def stepMerge (items : List CollectionItem) (o : TaskOutcome) : List CollectionItem :=
  match o with
  | TaskOutcome.failure _ => items
  | TaskOutcome.success r => mergeResult items r

/-- The sequence of on-disk snapshots produced during a describer run: the
save callback runs once after every successful merge (`describer.py` lines
343-345), and never after a failure. -/
def describeSnapshots (items : List CollectionItem) (outs : List TaskOutcome) :
    List (List CollectionItem) :=
  match outs with
  | [] => []
  | TaskOutcome.failure _ :: rest => describeSnapshots items rest
  | TaskOutcome.success r :: rest =>
    let items' := mergeResult items r
    items' :: describeSnapshots items' rest

/-- Number of successful tasks (`successful` counter of `describe_collection`). -/
def successCount (outs : List TaskOutcome) : Nat :=
  (outs.filter (fun o => match o with | TaskOutcome.success _ => true | _ => false)).length

/-- Embedding of `CollectionDescriber.describe_collection` (`describer.py` lines 257-379),
with the pool's completed tasks and the overview reply supplied as oracles.
The source has two distinct return shapes: when no item needs a description it
returns the bare item list (line 285, `return items`); otherwise it returns the
pair `(items, collection_overview)` (line 379), where the overview is generated
only when at least one task succeeded.  The sum type records which shape was
returned. -/
def describeCollection (items : List CollectionItem) (outs : List TaskOutcome)
    (overviewReply : Option String) :
    Sum (List CollectionItem) (List CollectionItem × Option String) :=
  let needs := items.filter needsDescription
  if needs.isEmpty then
    Sum.inl items
  else
    let final := outs.foldl stepMerge items
    let overview := if 0 < successCount outs then overviewReply else Option.none
    Sum.inr (final, overview)

/-! ## Python string primitives

Explicit char-list implementations of the Python string operations the source
uses (`str.strip`, `str.lower`, `str.replace('"','')`, slicing, `<` on
strings), so that every definition evaluates inside the kernel. -/

/-- Python `str.strip()`: drop whitespace at both ends. -/
def pyStrip (s : String) : String :=
  ⟨((s.data.dropWhile Char.isWhitespace).reverse.dropWhile Char.isWhitespace).reverse⟩

/-- Python `str.lower()`. -/
def pyLower (s : String) : String := ⟨s.data.map Char.toLower⟩

/-- Python `str.replace('"', '')`: remove every double quote. -/
def pyDropQuotes (s : String) : String := ⟨s.data.filter (fun c => c ≠ '"')⟩

/-- Python slicing `s[:n]`: the first `n` code points. -/
def pyTake (n : Nat) (s : String) : String := ⟨s.data.take n⟩

/-- Python string comparison `a <= b`: lexicographic on code points. -/
def charListLE : List Char → List Char → Bool
  | [], _ => true
  | _ :: _, [] => false
  | a :: as, b :: bs => if a < b then true else if b < a then false else charListLE as bs

/-! ## Describer response handling (`describer.py`, `generate_description`) -/

/-- The `description`/`category` pair produced for one item. -/
structure DescPair where
  description : String
  category : String
deriving DecidableEq

/-- Response handling of `CollectionDescriber.generate_description`
(`describer.py` lines 48-143).  `content` is the scanner's
`get_content_for_description` output; `chatReply` is the model reply (`none`
when `llm.chat` raised); `parsed` is the outcome of
`json.loads(response.strip())` (`none` on `JSONDecodeError`).  A Python
exception anywhere in the body is caught by the outer handler and turns into
`none`: in particular `.strip()` on a non-string description raises
`AttributeError`, `.get` on a non-dict parse result raises `AttributeError`,
and `[-1]` on an empty category list raises `IndexError`. -/
def generateDescription (content : String) (chatReply : Option String)
    (parsed : Option PyVal) (categories : List String) : Option DescPair :=
  if pyStrip content = "" then Option.none
  else
    match chatReply with
    | Option.none => Option.none
    | some response =>
      match parsed with
      | some (PyVal.dict fields) =>
        match dictGetD fields "description" (PyVal.str "") with
        | PyVal.str ds =>
          let description := pyTake 150 (pyStrip ds)
          let category := dictGetD fields "category" (PyVal.str "utilities_misc")
          match category with
          | PyVal.str c =>
            if categories.contains c then some ⟨description, c⟩
            else
              match categories.getLast? with
              | some lastc => some ⟨description, lastc⟩
              | Option.none => Option.none
          | _ =>
            match categories.getLast? with
            | some lastc => some ⟨description, lastc⟩
            | Option.none => Option.none
        | _ => Option.none
      | some _ => Option.none
      | Option.none =>
        match categories.getLast? with
        | some lastc => some ⟨pyTake 150 (pyStrip response), lastc⟩
        | Option.none => Option.none

/-! ## Index store (`pipeline.py`, `save_index` / `load_index`) -/

/-- Python `dict[k] = v`: replace the value of an existing key in place, else append. -/
def dictSet (d : List (String × PyVal)) (k : String) (v : PyVal) : List (String × PyVal) :=
  if d.any (fun p => p.1 = k) then d.map (fun p => if p.1 = k then (k, v) else p)
  else d ++ [(k, v)]

/-- Python `dict.update(m)`: apply `dictSet` for each pair of `m` in order. -/
def dictUpdate (d m : List (String × PyVal)) : List (String × PyVal) :=
  m.foldl (fun acc p => dictSet acc p.1 p.2) d

/-- An `Option String` rendered as a YAML value (`None` → `null`). -/
def optStr (o : Option String) : PyVal :=
  match o with
  | some s => PyVal.str s
  | Option.none => PyVal.none

/-- The per-item dictionary built by `save_index` (`pipeline.py` lines
103-117): nine standard keys in declared order, then the metadata bag
flattened on top via `dict.update`. -/
def itemToDict (it : CollectionItem) : List (String × PyVal) :=
  dictUpdate
    [("short_name", PyVal.str it.short_name),
     ("type", PyVal.str it.type),
     ("size", PyVal.int it.size),
     ("created", PyVal.str it.created),
     ("modified", PyVal.str it.modified),
     ("accessed", PyVal.str it.accessed),
     ("path", PyVal.str it.path),
     ("description", optStr it.description),
     ("category", optStr it.category)]
    it.metadata

/-- The document `save_index` serializes (`pipeline.py` lines 121-130): a
mapping `{collection_overview, items}` when the overview is truthy (a
non-`None`, non-empty string), otherwise the legacy bare list, kept "for
backward compatibility". -/
def saveDocument (items : List CollectionItem) (overview : Option String) : PyVal :=
  let itemsData := PyVal.list (items.map (fun it => PyVal.dict (itemToDict it)))
  match overview with
  | some s => if s = "" then itemsData else PyVal.dict [("collection_overview", PyVal.str s), ("items", itemsData)]
  | Option.none => itemsData

/-- Whether a saved document uses the newer mapping layout. -/
def isMappingLayout (doc : PyVal) : Bool :=
  match doc with
  | PyVal.dict _ => true
  | _ => false

/-- Filesystem operations a save can perform. -/
inductive FsOp where
  | write (path : String) (doc : PyVal)
  | rename (src dst : String)

/-- The operation trace of `save_index` (`pipeline.py` lines 132-133): a
single `open(index_path, 'w')` + `yaml.dump`, i.e. one direct write to the
index path.  No temporary file and no rename appear in the source. -/
def saveIndexOps (items : List CollectionItem) (indexPath : String)
    (overview : Option String) : List FsOp :=
  [FsOp.write indexPath (saveDocument items overview)]

/-- State of one file: absent, fully written, or truncated mid-write. -/
inductive FileState where
  | absent
  | full (doc : PyVal)
  | truncated (doc : PyVal)

/-- Effect of one completed filesystem operation. -/
def applyOp (fs : String → FileState) (op : FsOp) : String → FileState :=
  match op with
  | FsOp.write p doc => fun q => if q = p then FileState.full doc else fs q
  | FsOp.rename src dst => fun q =>
      if q = dst then fs src else if q = src then FileState.absent else fs q

/-- Effect of an operation the process is killed in the middle of: a write
leaves the target truncated; a rename is atomic, so an interrupted rename
simply has not happened. -/
def applyOpInterrupted (fs : String → FileState) (op : FsOp) : String → FileState :=
  match op with
  | FsOp.write p doc => fun q => if q = p then FileState.truncated doc else fs q
  | FsOp.rename _ _ => fs

/-- Run a whole operation trace. -/
def execOps (fs : String → FileState) (ops : List FsOp) : String → FileState :=
  ops.foldl applyOp fs

/-- Run a trace but interrupt it during operation `k` (0-based): the first `k`
operations complete, operation `k` (when it exists) is cut mid-execution, and
the rest never run. -/
def execInterruptedAt (fs : String → FileState) (ops : List FsOp) (k : Nat) :
    String → FileState :=
  match ops, k with
  | [], _ => fs
  | op :: _, 0 => applyOpInterrupted fs op
  | op :: rest, Nat.succ n => execInterruptedAt (applyOp fs op) rest n

/-- A `PyVal` read back as an optional string (`description`/`category`/
`collection_overview` fields; the index writer only ever stores strings or
`null` there). -/
def asOptStr (v : PyVal) : Option String :=
  match v with
  | PyVal.str s => some s
  | _ => Option.none

/-- The nine standard per-item keys of `load_index` (`pipeline.py` lines
163-166); every other key is folded into `metadata`. -/
def standardFields : List String :=
  ["short_name", "type", "size", "created", "modified", "accessed", "path",
   "description", "category"]

/-- Required string field of an item record: `item_data['k']` raises
`KeyError` when absent (`load_index` passes it positionally). -/
def requireStr (fields : List (String × PyVal)) (k : String) : Except String String :=
  match dictGetD fields k PyVal.none with
  | PyVal.str s => Except.ok s
  | _ => Except.error ("missing or non-string field " ++ k)

/-- Required integer field of an item record (`size`). -/
def requireInt (fields : List (String × PyVal)) (k : String) : Except String Int :=
  match dictGetD fields k PyVal.none with
  | PyVal.int n => Except.ok n
  | _ => Except.error ("missing or non-integer field " ++ k)

/-- One item record of the on-disk index converted back to a `CollectionItem`
(`load_index`, `pipeline.py` lines 160-183). -/
def parseItemRecord (v : PyVal) : Except String CollectionItem :=
  match v with
  | PyVal.dict fields => do
    let sn ← requireStr fields "short_name"
    let ty ← requireStr fields "type"
    let sz ← requireInt fields "size"
    let cr ← requireStr fields "created"
    let mo ← requireStr fields "modified"
    let ac ← requireStr fields "accessed"
    let pa ← requireStr fields "path"
    Except.ok
      { short_name := sn, type := ty, size := sz, created := cr, modified := mo,
        accessed := ac, path := pa,
        description := asOptStr (dictGetD fields "description" PyVal.none),
        category := asOptStr (dictGetD fields "category" PyVal.none),
        metadata := fields.filter (fun p => ¬ standardFields.contains p.1) }
  | _ => Except.error "item record is not a mapping"

/-- Parse every item record in order, failing on the first malformed one. -/
def parseItemRecords (xs : List PyVal) : Except String (List CollectionItem) :=
  match xs with
  | [] => Except.ok []
  | v :: rest => do
    let it ← parseItemRecord v
    let more ← parseItemRecords rest
    Except.ok (it :: more)

/-- Embedding of `load_index` (`pipeline.py` lines 136-185).  The argument is the file at
the index path: `none` when no file exists there, otherwise the YAML document
it holds.  A missing file returns `([], None)` without touching the
filesystem; a mapping yields `collection_overview` plus its `items`; a bare
list is the legacy layout; anything else is treated as empty. -/
def loadIndex (file : Option PyVal) : Except String (List CollectionItem × Option String) :=
  match file with
  | Option.none => Except.ok ([], Option.none)
  | some data =>
    match data with
    | PyVal.dict fields =>
      let overview := asOptStr (dictGetD fields "collection_overview" PyVal.none)
      match dictGetD fields "items" (PyVal.list []) with
      | PyVal.list xs => do
        let items ← parseItemRecords xs
        Except.ok (items, overview)
      | _ => Except.error "items is not a list"
    | PyVal.list xs => do
      let items ← parseItemRecords xs
      Except.ok (items, Option.none)
    | _ => Except.ok ([], Option.none)

/-- The preserve map `run_full_pipeline` hands to the scanner (`pipeline.py`
lines 316-322): `path → (description, category)` for every previously indexed
item. -/
def preserveData (items : List CollectionItem) :
    List (String × (Option String × Option String)) :=
  items.map (fun it => (it.path, (it.description, it.category)))

/-! ## Fallback scanner (`collection-portable/src/fallback_scanner.py`) -/

/-- Embedding of `FallbackScanner.get_categories` (lines 24-34). -/
def fallbackCategories : List String :=
  ["documents", "media_files", "code_projects", "data_files", "archives",
   "configuration", "utilities", "miscellaneous"]

/-- Extension tables of `FallbackScanner.get_file_type_category` (lines 53-89). -/
def fallbackDocumentExts : List String := [".pdf", ".doc", ".docx", ".txt", ".md", ".rtf"]

/-- Media extensions of `get_file_type_category`. -/
def fallbackMediaExts : List String := [".mp3", ".mp4", ".avi", ".mkv", ".jpg", ".png", ".gif"]

/-- Code extensions of `get_file_type_category`. -/
def fallbackCodeExts : List String := [".py", ".js", ".ts", ".java", ".cpp", ".c", ".go", ".rs"]

/-- Data extensions of `get_file_type_category`. -/
def fallbackDataExts : List String := [".csv", ".json", ".xml", ".yaml", ".yml", ".sql"]

/-- Archive extensions of `get_file_type_category`. -/
def fallbackArchiveExts : List String := [".zip", ".tar", ".gz", ".rar", ".7z"]

/-- Config extensions of `get_file_type_category`. -/
def fallbackConfigExts : List String := [".conf", ".cfg", ".ini", ".toml"]

/-- Executable extensions of `get_file_type_category`. -/
def fallbackExecExts : List String := [".exe", ".msi", ".deb", ".rpm", ".dmg"]

/-- Embedding of `FallbackScanner.get_file_type_category` (lines 53-89): directories get
the literal category `"directories"`; files are bucketed by lower-cased
extension, defaulting to `"miscellaneous"`. -/
def fileTypeCategory (isDir : Bool) (ext : String) : String :=
  if isDir then "directories"
  else if fallbackDocumentExts.contains ext then "documents"
  else if fallbackMediaExts.contains ext then "media_files"
  else if fallbackCodeExts.contains ext then "code_projects"
  else if fallbackDataExts.contains ext then "data_files"
  else if fallbackArchiveExts.contains ext then "archives"
  else if fallbackConfigExts.contains ext then "configuration"
  else if fallbackExecExts.contains ext then "utilities"
  else "miscellaneous"

/-- The category `FallbackScanner.scan` stores on a freshly scanned item
(lines 141-154): `preserve_data.get(path, {}).get('category', auto_category)`
— the preserved category verbatim when the path was previously indexed
(possibly `None`), else the automatic file-type category. -/
def scanItemCategory (preserved : Option (Option String × Option String))
    (autoCategory : String) : Option String :=
  match preserved with
  | some entry => entry.2
  | Option.none => some autoCategory

/-- The description `FallbackScanner.scan` stores (line 153):
`preserve_data.get(path, {}).get('description')`. -/
def scanItemDescription (preserved : Option (Option String × Option String)) :
    Option String :=
  match preserved with
  | some entry => entry.1
  | Option.none => Option.none

/-! ## Analyzer (`src/.index/analyzer.py`) -/

/-- The slice of `inspect_directory` output that `_heuristic_detection`
consults: git-repo presence, directory count, and the set of file extensions
tallied in `file_types`. -/
structure Inspection where
  has_git_repos : Bool
  total_dirs : Nat
  file_types : List String

/-- Media extensions of `_heuristic_detection` (line 192). -/
def analyzerMediaExts : List String :=
  [".mp4", ".mkv", ".avi", ".mp3", ".flac", ".wav", ".jpg", ".png", ".gif"]

/-- Document extensions of `_heuristic_detection` (line 197). -/
def analyzerDocExts : List String := [".pdf", ".doc", ".docx", ".txt", ".md"]

/-- Embedding of `CollectionAnalyzer._heuristic_detection` (`analyzer.py` lines 183-202):
git repos among the sampled directories → `"repositories"`; any media
extension → `"media"`; any document extension → `"documents"`; otherwise the
function returns `"repositories"` ("Safe default since we have that plugin"). -/
def heuristicDetection (insp : Inspection) : String :=
  if insp.has_git_repos && decide (0 < insp.total_dirs) then "repositories"
  else if insp.file_types.any (fun e => analyzerMediaExts.contains e) then "media"
  else if insp.file_types.any (fun e => analyzerDocExts.contains e) then "documents"
  else "repositories"

/-- Normalization of the model's classification reply
(`_detect_collection_type` line 170): `response.strip().lower().replace('"', '')`. -/
def normalizeReply (r : String) : String :=
  pyDropQuotes (pyLower (pyStrip r))

/-- Embedding of `CollectionAnalyzer._detect_collection_type` (`analyzer.py` lines
128-181): `chatReply` is the model reply (`none` when `llm.chat` raised);
`registered` the names of registered scanner plugins.  A registered name is
used as-is, anything else falls back to the heuristics. -/
def detectCollectionType (chatReply : Option String) (registered : List String)
    (insp : Inspection) : String :=
  match chatReply with
  | some r =>
    let ct := normalizeReply r
    if registered.contains ct then ct else heuristicDetection insp
  | Option.none => heuristicDetection insp

/-! ## Renderer (`collection-portable/src/readme_generator.py`, `generate_collection`) -/

/-- One step of the `defaultdict(list)` accumulation of `generate_collection`
(lines 248-251): uncategorized items are skipped; a categorized item is
appended to its category's list, a first occurrence adding the key at the end
(Python dicts preserve insertion order). -/
def addToCategories (acc : List (String × List CollectionItem)) (it : CollectionItem) :
    List (String × List CollectionItem) :=
  match it.category with
  | Option.none => acc
  | some c =>
    if acc.any (fun p => p.1 = c) then
      acc.map (fun p => if p.1 = c then (p.1, p.2 ++ [it]) else p)
    else
      acc ++ [(c, [it])]

/-- The `categories` dict of `generate_collection` as an insertion-ordered
association list. -/
def categoriesDict (items : List CollectionItem) : List (String × List CollectionItem) :=
  items.foldl addToCategories []

/-- Order in which `sorted(categories.items())` arranges the sections: by the
category name (the dict's keys are distinct, so the tuple comparison never
reaches the values). -/
def sectionLE (a b : String × List CollectionItem) : Prop :=
  charListLE a.1.data b.1.data = true

instance : DecidableRel sectionLE :=
  fun a b => inferInstanceAs (Decidable (charListLE a.1.data b.1.data = true))

/-- Totality of `charListLE`. -/
theorem charListLE_total : ∀ as bs : List Char, charListLE as bs = true ∨ charListLE bs as = true := by
  intro as
  induction as with
  | nil => intro bs; left; rfl
  | cons a as ih =>
    intro bs
    cases bs with
    | nil => right; rfl
    | cons b bs =>
      rcases lt_trichotomy a b with h | h | h
      · left; simp [charListLE, h]
      · subst h
        rcases ih bs with h2 | h2
        · left; simp [charListLE, lt_irrefl, h2]
        · right; simp [charListLE, lt_irrefl, h2]
      · right; simp [charListLE, h]

/-- Transitivity of `charListLE`. -/
theorem charListLE_trans : ∀ as bs cs : List Char,
    charListLE as bs = true → charListLE bs cs = true → charListLE as cs = true := by
  intro as
  induction as with
  | nil => intro bs cs _ _; rfl
  | cons a as ih =>
    intro bs cs hab hbc
    cases bs with
    | nil => simp [charListLE] at hab
    | cons b bs =>
      cases cs with
      | nil => simp [charListLE] at hbc
      | cons c cs =>
        rcases lt_trichotomy a b with h1 | h1 | h1
        · rcases lt_trichotomy b c with h2 | h2 | h2
          · simp [charListLE, lt_trans h1 h2]
          · subst h2; simp [charListLE, h1]
          · simp [charListLE, h2, lt_asymm h2] at hbc
        · subst h1
          rcases lt_trichotomy a c with h2 | h2 | h2
          · simp [charListLE, h2]
          · subst h2
            simp [charListLE, lt_irrefl] at hab hbc ⊢
            exact ih bs cs hab hbc
          · simp [charListLE, h2, lt_asymm h2] at hbc
        · simp [charListLE, h1, lt_asymm h1] at hab

instance : IsTotal (String × List CollectionItem) sectionLE :=
  ⟨fun a b => charListLE_total a.1.data b.1.data⟩

instance : IsTrans (String × List CollectionItem) sectionLE :=
  ⟨fun _ _ _ hab hbc => charListLE_trans _ _ _ hab hbc⟩

/-- The category sections of `generate_collection` (line 254:
`for category, cat_items in sorted(categories.items())`): the insertion-ordered
dict sorted by category name.  A stable sort over distinct keys; Mathlib's
insertion sort computes the same list as Python's stable `sorted`. -/
def categorySections (items : List CollectionItem) : List (String × List CollectionItem) :=
  List.insertionSort sectionLE (categoriesDict items)

/-- The items of the input list carrying a given category, in input order. -/
def itemsWithCategory (c : String) (items : List CollectionItem) : List CollectionItem :=
  items.filter (fun it => it.category == some c)

/-! ## Organic placer (`collectivist-seed/src/organic.py`, `process_new_content`) -/

/-- One new item as seen by the auto-file loop (lines 469-511), with the
placement analysis and the outcome `shutil.move` would have as oracles:
`confidence` is `placement['confidence']`, `targetPath` is
`placement['suggested_path']`, and `moveOutcome` is `none` when the
`mkdir`+`move` pair succeeds, `some msg` when it raises. -/
structure PlacementTask where
  path : String
  targetPath : String
  confidence : ℚ
  moveOutcome : Option String

/-- One entry of the `results` list `process_new_content` returns. -/
structure PlacementResult where
  itemPath : String
  autoFiled : Bool
  error : Option String
  movedTo : Option String

/-- The per-item body of the loop (lines 477-511): auto-file exactly when the
flag is on and `confidence >= threshold`; on success mark `auto_filed`; on an
exception record the message and keep going.  The decision never consults the
filesystem: the source checks no precondition on the target path before
calling `shutil.move`. -/
def processItemPlacement (autoFile : Bool) (threshold : ℚ) (t : PlacementTask) :
    PlacementResult :=
  if autoFile && decide (threshold ≤ t.confidence) then
    match t.moveOutcome with
    | Option.none => ⟨t.path, true, Option.none, some t.targetPath⟩
    | some e => ⟨t.path, false, some e, Option.none⟩
  else ⟨t.path, false, Option.none, Option.none⟩

/-- Embedding of `ContentProcessor.process_new_content` (lines 428-517) restricted to its
auto-file loop: every new item is processed in order and contributes one
result; `preExisting` is the set of paths present on disk when the stage
starts, threaded through to show that no decision depends on it. -/
def processNewContent (preExisting : List String) (tasks : List PlacementTask)
    (autoFile : Bool) (threshold : ℚ) : List PlacementResult :=
  match tasks with
  | [] => []
  | t :: rest =>
    processItemPlacement autoFile threshold t ::
      processNewContent preExisting rest autoFile threshold

/-! ## Concrete fixtures -/

/-- Shorthand for a concrete `CollectionItem` with empty metadata. -/
def mkItem (name path : String) (size : Int) (desc cat : Option String) : CollectionItem :=
  { short_name := name, type := "file", size := size, created := "", modified := "",
    accessed := "", path := path, description := desc, category := cat, metadata := [] }

/-! ## Claim C10 -/

/-- C10: loading the index from a path at which no index file exists returns
the empty item list and a null overview without raising, so a first-ever scan
runs with an empty preserve map. -/
theorem c10_load_missing_index :
    ∃ pr, loadIndex Option.none = Except.ok pr
      ∧ pr.1 = [] ∧ pr.2 = Option.none ∧ preserveData pr.1 = [] :=
  ⟨([], Option.none), rfl, rfl, rfl, rfl⟩

/-! ## Claim C2 -/

/-- C2: the fallback scanner violates the category invariant.  For a directory
item with no preserved entry, `scan` stores the automatic category
`get_file_type_category` computes, which for a directory is the literal
`"directories"` — a value that is neither null nor a member of the scanner's
own `get_categories()` list (the list the analyzer copies into
`config.categories`). -/
theorem c2_fallback_scan_category_bug :
    scanItemCategory Option.none (fileTypeCategory true "") = some "directories"
    ∧ "directories" ∉ fallbackCategories :=
  ⟨rfl, by decide⟩

/-! ## Claim C4 -/

/-- Concrete item used in the save-layout counterexample. -/
def c4item : CollectionItem := mkItem "alpha" "/c/alpha" 3 (some "ready") (some "documents")

/-- C4 counterexample: a save with no overview writes the legacy bare
top-level list, not the `{collection_overview, items}` mapping the claim says
is always written. -/
theorem c4_save_bare_list_without_overview :
    saveDocument [c4item] Option.none = PyVal.list [PyVal.dict (itemToDict c4item)]
    ∧ isMappingLayout (saveDocument [c4item] Option.none) = false :=
  ⟨rfl, rfl⟩

/-- C4 amended: a save writes the newer mapping layout exactly when the
overview is a present, non-empty string; otherwise (`None` or `""`, both falsy
in the `if collection_overview:` test) it writes the legacy bare list. -/
theorem c4_mapping_layout_iff_overview (items : List CollectionItem) (ov : Option String) :
    isMappingLayout (saveDocument items ov) = true ↔ ∃ s, ov = some s ∧ s ≠ "" := by
  cases ov with
  | none => simp [saveDocument, isMappingLayout]
  | some s =>
    by_cases h : s = ""
    · subst h; simp [saveDocument, isMappingLayout]
    · simp [saveDocument, isMappingLayout, h]

/-! ## Claim C1 -/

/-- C1: when every item already has a non-empty description,
`describe_collection` does no per-item work and returns the item list
unchanged — but as the BARE list (`return items`, line 285), never as the
`(items, overview?)` pair the claim (and the function's own docstring, and its
tuple-unpacking caller `run_full_pipeline` line 374) require. -/
theorem c1_all_described_returns_bare_list (items : List CollectionItem)
    (outs : List TaskOutcome) (overviewReply : Option String)
    (h : ∀ it ∈ items, needsDescription it = false) :
    describeCollection items outs overviewReply = Sum.inl items
    ∧ ∀ pr, describeCollection items outs overviewReply ≠ Sum.inr pr := by
  have hf : items.filter needsDescription = [] := by
    rw [List.filter_eq_nil_iff]
    intro a ha
    simp [h a ha]
  constructor
  · simp [describeCollection, hf]
  · intro pr
    simp [describeCollection, hf]

/-- Witness for C1 at a one-item list whose description is set: the result is
the bare list, and in the pipeline the tuple unpacking of a 1-element list
raises `ValueError`. -/
theorem c1_all_described_returns_bare_list_witness :
    describeCollection [c4item] [] Option.none = Sum.inl [c4item]
    ∧ ∀ pr, describeCollection [c4item] [] Option.none ≠ Sum.inr pr :=
  c1_all_described_returns_bare_list [c4item] [] Option.none (by decide)

/-! ## Claim C6 -/

/-- The heuristic chain exactly as claim C6 states it, written from the
claim's words for comparison with the source's `_heuristic_detection`: same
fixed priority, but ending in the `fallback` type. -/
def claimedHeuristicDetection (insp : Inspection) : String :=
  if insp.has_git_repos && decide (0 < insp.total_dirs) then "repositories"
  else if insp.file_types.any (fun e => analyzerMediaExts.contains e) then "media"
  else if insp.file_types.any (fun e => analyzerDocExts.contains e) then "documents"
  else "fallback"

/-- The chain as amended: the remaining case selects `"repositories"`, the
source's declared "safe default". -/
def amendedHeuristicDetection (insp : Inspection) : String :=
  if insp.has_git_repos && decide (0 < insp.total_dirs) then "repositories"
  else if insp.file_types.any (fun e => analyzerMediaExts.contains e) then "media"
  else if insp.file_types.any (fun e => analyzerDocExts.contains e) then "documents"
  else "repositories"

/-- C6 counterexample: on a directory with no git repos, no media extensions
and no document extensions, the source heuristic selects `"repositories"`,
not the `"fallback"` type the claim names. -/
theorem c6_heuristic_default_not_fallback :
    heuristicDetection ⟨false, 0, []⟩ = "repositories"
    ∧ claimedHeuristicDetection ⟨false, 0, []⟩ = "fallback"
    ∧ heuristicDetection ⟨false, 0, []⟩ ≠ claimedHeuristicDetection ⟨false, 0, []⟩ :=
  ⟨rfl, rfl, by decide⟩

/-- C6 amended: whenever classification fails (`chat` raised) or names an
unregistered scanner, the analyzer applies the deterministic heuristics in
their fixed priority — `.git` children among the sampled directories →
`repositories`, then media extensions → `media`, then document extensions →
`documents` — and in every remaining case it selects `repositories`; a reply
naming a registered scanner is used as normalized. -/
theorem c6_heuristic_chain_amended (insp : Inspection) (reg : List String) :
    heuristicDetection insp = amendedHeuristicDetection insp
    ∧ detectCollectionType Option.none reg insp = amendedHeuristicDetection insp
    ∧ (∀ r, reg.contains (normalizeReply r) = false →
        detectCollectionType (some r) reg insp = amendedHeuristicDetection insp)
    ∧ (∀ r, reg.contains (normalizeReply r) = true →
        detectCollectionType (some r) reg insp = normalizeReply r) := by
  refine ⟨rfl, rfl, ?_, ?_⟩
  · intro r h
    simp only [detectCollectionType, h, Bool.false_eq_true, if_false]
    rfl
  · intro r h
    simp only [detectCollectionType, h, if_true]

/-- Witness for C6: a reply naming no registered scanner, over an inspection
with a document extension, yields `"documents"`. -/
theorem c6_heuristic_chain_amended_witness :
    detectCollectionType (some "\"Datasets\"") ["repositories", "media"]
      ⟨false, 0, [".pdf"]⟩ = "documents" := by
  have h := (c6_heuristic_chain_amended ⟨false, 0, [".pdf"]⟩ ["repositories", "media"]).2.2.1
    "\"Datasets\"" (by decide)
  rw [h]
  decide

/-! ## Claim C3 -/

/-- Claim C3 as stated: every save trace writes to a temporary file and then
renames it over the index path. -/
def c3_claimAsStated : Prop :=
  ∀ (items : List CollectionItem) (indexPath : String) (ov : Option String),
    ∃ tmp doc, tmp ≠ indexPath
      ∧ saveIndexOps items indexPath ov = [FsOp.write tmp doc, FsOp.rename tmp indexPath]

/-- C3 counterexample: the save trace is a single direct write — no trace has
the write-then-rename shape. -/
theorem c3_save_not_write_then_rename : ¬ c3_claimAsStated := by
  intro h
  obtain ⟨tmp, doc, _, heq⟩ := h [] "idx" Option.none
  simp [saveIndexOps] at heq

/-- C3 amended: `save_index` performs one direct write to the index path: a
completed save leaves the full new document there and touches no other path,
while a save interrupted mid-write leaves the index file truncated — the
previously persisted content is destroyed, not preserved. -/
theorem c3_save_single_direct_write (items : List CollectionItem) (indexPath : String)
    (ov : Option String) (fs : String → FileState) :
    execOps fs (saveIndexOps items indexPath ov) indexPath
        = FileState.full (saveDocument items ov)
    ∧ (∀ q, q ≠ indexPath → execOps fs (saveIndexOps items indexPath ov) q = fs q)
    ∧ execInterruptedAt fs (saveIndexOps items indexPath ov) 0 indexPath
        = FileState.truncated (saveDocument items ov) := by
  refine ⟨?_, ?_, ?_⟩
  · simp [execOps, saveIndexOps, applyOp]
  · intro q hq
    simp [execOps, saveIndexOps, applyOp, hq]
  · simp [execInterruptedAt, saveIndexOps, applyOpInterrupted]

/-- Witness for C3 amended at a concrete save over an empty filesystem. -/
theorem c3_save_single_direct_write_witness :
    execOps (fun _ => FileState.absent) (saveIndexOps [c4item] "idx" Option.none) "other"
      = FileState.absent :=
  (c3_save_single_direct_write [c4item] "idx" Option.none (fun _ => FileState.absent)).2.1
    "other" (by decide)

/-! ## Claim C7 -/

/-- Claim C7 as stated (guard part): an auto-file move is performed only if
the target path does not already exist. -/
def c7_claimAsStated : Prop :=
  ∀ (preExisting : List String) (tasks : List PlacementTask) (autoFile : Bool) (th : ℚ),
    ∀ res ∈ processNewContent preExisting tasks autoFile th,
      ∀ dst, res.movedTo = some dst → dst ∉ preExisting

/-- C7 counterexample: the loop never consults the filesystem before moving —
a move is performed even when the target path already exists. -/
theorem c7_move_not_guarded_by_target : ¬ c7_claimAsStated := by
  intro h
  have hmem : processItemPlacement true 0 ⟨"/c/plan.md", "/c/notes/plan.md", 1, Option.none⟩
      ∈ processNewContent ["/c/notes/plan.md"]
          [⟨"/c/plan.md", "/c/notes/plan.md", 1, Option.none⟩] true 0 := by
    simp [processNewContent]
  have hres := h ["/c/notes/plan.md"] [⟨"/c/plan.md", "/c/notes/plan.md", 1, Option.none⟩]
    true 0 _ hmem "/c/notes/plan.md" rfl
  simp at hres

/-- C7 amended: auto-filing is guarded only by the `auto_file` flag and the
confidence threshold — no target-existence check is made (the results are
independent of the pre-existing filesystem) — and on any I/O error during a
move that move is abandoned and recorded while every remaining new item is
still processed (the result list is the independent per-item map). -/
theorem c7_loop_continues_after_error (preExisting : List String)
    (tasks : List PlacementTask) (autoFile : Bool) (th : ℚ) :
    processNewContent preExisting tasks autoFile th
        = tasks.map (processItemPlacement autoFile th)
    ∧ (∀ pre2, processNewContent preExisting tasks autoFile th
        = processNewContent pre2 tasks autoFile th)
    ∧ (∀ t e, autoFile = true → th ≤ t.confidence → t.moveOutcome = some e →
        processItemPlacement autoFile th t
          = { itemPath := t.path, autoFiled := false, error := some e,
              movedTo := Option.none })
    ∧ (∀ t, autoFile = true → th ≤ t.confidence → t.moveOutcome = Option.none →
        processItemPlacement autoFile th t
          = { itemPath := t.path, autoFiled := true, error := Option.none,
              movedTo := some t.targetPath }) := by
  refine ⟨?_, ?_, ?_, ?_⟩
  · induction tasks with
    | nil => rfl
    | cons t rest ih => simp [processNewContent, ih]
  · intro pre2
    induction tasks with
    | nil => rfl
    | cons t rest ih => simp [processNewContent, ih]
  · intro t e ha hc hm
    subst ha
    simp [processItemPlacement, hm, decide_eq_true hc]
  · intro t ha hc hm
    subst ha
    simp [processItemPlacement, hm, decide_eq_true hc]

/-- Witness for C7 amended: a failed move is recorded and does not mark the
item auto-filed. -/
theorem c7_loop_continues_after_error_witness :
    processItemPlacement true 1 ⟨"/c/a", "/c/t/a", 1, some "disk full"⟩
      = { itemPath := "/c/a", autoFiled := false, error := some "disk full",
          movedTo := Option.none } :=
  (c7_loop_continues_after_error [] [] true 1).2.2.1
    ⟨"/c/a", "/c/t/a", 1, some "disk full"⟩ "disk full" rfl (by decide) rfl

/-! ## Claim C8 -/

/-- Claim C8 as stated implies: every reply whose trimmed text parses as JSON
yields a description/category pair (the first branch of the claim). -/
def c8_claimAsStated : Prop :=
  ∀ (content response : String) (parsed : Option PyVal) (categories : List String),
    pyStrip content ≠ "" → categories ≠ [] → parsed.isSome = true →
    (generateDescription content (some response) parsed categories).isSome = true

/-- C8 counterexample: the reply `"42"` parses as JSON (a number), but
`result.get('description', ...)` on a non-dict raises `AttributeError`, the
outer handler returns `None`, and the item is treated as failed — neither
branch of the claim applies. -/
theorem c8_json_scalar_reply_fails : ¬ c8_claimAsStated := by
  intro h
  have h42 := h "c" "42" (some (PyVal.int 42)) ["documents", "miscellaneous"]
    (by decide) (by decide) rfl
  rw [show generateDescription "c" (some "42") (some (PyVal.int 42))
      ["documents", "miscellaneous"] = Option.none from rfl] at h42
  simp at h42

/-- C8 amended: a reply failing JSON parse yields the trimmed raw reply
(truncated to 150) with the last declared category; a reply parsing as a JSON
OBJECT whose `description` value is a string (or absent, defaulting to the
empty string) yields that string trimmed and truncated, with the `category`
value kept when it is a declared category and the last declared category
substituted otherwise (an absent category defaults to `'utilities_misc'`
before validation); a reply parsing as JSON but not as an object, or an object
whose `description` value is not a string, makes the item fail with no
description. -/
theorem c8_reply_parsing_amended (content response : String) (categories : List String)
    (lastc : String) (hc : pyStrip content ≠ "") (hl : categories.getLast? = some lastc) :
    (generateDescription content (some response) Option.none categories
        = some ⟨pyTake 150 (pyStrip response), lastc⟩)
    ∧ (∀ fields ds c, dictGetD fields "description" (PyVal.str "") = PyVal.str ds →
        dictGetD fields "category" (PyVal.str "utilities_misc") = PyVal.str c →
        c ∈ categories →
        generateDescription content (some response) (some (PyVal.dict fields)) categories
          = some ⟨pyTake 150 (pyStrip ds), c⟩)
    ∧ (∀ fields ds c, dictGetD fields "description" (PyVal.str "") = PyVal.str ds →
        dictGetD fields "category" (PyVal.str "utilities_misc") = PyVal.str c →
        c ∉ categories →
        generateDescription content (some response) (some (PyVal.dict fields)) categories
          = some ⟨pyTake 150 (pyStrip ds), lastc⟩)
    ∧ (∀ fields ds n, dictGetD fields "description" (PyVal.str "") = PyVal.str ds →
        dictGetD fields "category" (PyVal.str "utilities_misc") = PyVal.int n →
        generateDescription content (some response) (some (PyVal.dict fields)) categories
          = some ⟨pyTake 150 (pyStrip ds), lastc⟩)
    ∧ (∀ n, generateDescription content (some response) (some (PyVal.int n)) categories
        = Option.none)
    ∧ (∀ fields n, dictGetD fields "description" (PyVal.str "") = PyVal.int n →
        generateDescription content (some response) (some (PyVal.dict fields)) categories
          = Option.none) := by
  refine ⟨?_, ?_, ?_, ?_, ?_, ?_⟩
  · simp [generateDescription, hc, hl]
  · intro fields ds c hd hcat hmem
    simp [generateDescription, hc, hd, hcat, hmem]
  · intro fields ds c hd hcat hmem
    simp [generateDescription, hc, hd, hcat, hmem, hl]
  · intro fields ds n hd hcat
    simp [generateDescription, hc, hd, hcat, hl]
  · intro n
    simp [generateDescription, hc]
  · intro fields n hd
    simp [generateDescription, hc, hd]

/-- Witness for C8 amended: a well-formed JSON object reply keeps its declared
category and trims/truncates the description. -/
theorem c8_reply_parsing_amended_witness :
    generateDescription "Name: x" (some "{...}")
      (some (PyVal.dict [("description", PyVal.str " A tool. "), ("category", PyVal.str "documents")]))
      ["documents", "miscellaneous"] = some ⟨"A tool.", "documents"⟩ := by
  have h := (c8_reply_parsing_amended "Name: x" "{...}" ["documents", "miscellaneous"]
    "miscellaneous" (by decide) rfl).2.1
    [("description", PyVal.str " A tool. "), ("category", PyVal.str "documents")]
    " A tool. " "documents" rfl rfl (by decide)
  rw [h]
  rfl

/-! ## Claim C5 -/

/-- Lookup in the insertion-ordered categories dict (first entry wins). -/
def dictEntries (acc : List (String × List CollectionItem)) (c : String) :
    List CollectionItem :=
  match acc.find? (fun p => p.1 = c) with
  | some p => p.2
  | Option.none => []

/-- The update step of `addToCategories` preserves every key. -/
theorem addToCategories_updKey (c0 : String) (it : CollectionItem)
    (p : String × List CollectionItem) :
    ((if p.1 = c0 then (p.1, p.2 ++ [it]) else p) : String × List CollectionItem).1 = p.1 := by
  split <;> rfl

/-- Behavior of `find?` over the per-key update map of `addToCategories`. -/
theorem find?_addToCategories_update (acc : List (String × List CollectionItem))
    (c c0 : String) (it : CollectionItem) :
    (acc.map (fun p => if p.1 = c0 then (p.1, p.2 ++ [it]) else p)).find?
        (fun p => p.1 = c)
      = (acc.find? (fun p => p.1 = c)).map
          (fun p => if p.1 = c0 then (p.1, p.2 ++ [it]) else p) := by
  rw [List.find?_map]
  have hpred : ((fun p : String × List CollectionItem => decide (p.1 = c)) ∘
      (fun p : String × List CollectionItem => if p.1 = c0 then (p.1, p.2 ++ [it]) else p))
      = (fun p : String × List CollectionItem => decide (p.1 = c)) := by
    funext p
    simp [Function.comp, addToCategories_updKey c0 it p]
  rw [hpred]

/-- One `addToCategories` step, seen through `dictEntries`. -/
theorem dictEntries_add (acc : List (String × List CollectionItem))
    (it : CollectionItem) (c : String) :
    dictEntries (addToCategories acc it) c
      = dictEntries acc c ++ (if it.category = some c then [it] else []) := by
  cases hcat : it.category with
  | none => simp [addToCategories, hcat, dictEntries]
  | some c0 =>
    by_cases hc : c0 = c
    · subst hc
      by_cases hany : acc.any (fun p => p.1 = c0) = true
      · rw [show addToCategories acc it
            = acc.map (fun p => if p.1 = c0 then (p.1, p.2 ++ [it]) else p) by
            simp [addToCategories, hcat, hany]]
        unfold dictEntries
        rw [find?_addToCategories_update]
        cases hfind : acc.find? (fun p => p.1 = c0) with
        | none =>
          exfalso
          rw [List.any_eq_true] at hany
          obtain ⟨x, hx, hpx⟩ := hany
          rw [List.find?_eq_none] at hfind
          exact hfind x hx hpx
        | some p =>
          have hp : p.1 = c0 := by simpa using List.find?_some hfind
          simp [hcat, hp]
      · rw [show addToCategories acc it = acc ++ [(c0, [it])] by
            simp [addToCategories, hcat, hany]]
        unfold dictEntries
        rw [List.find?_append]
        cases hfind : acc.find? (fun p => p.1 = c0) with
        | none => simp [hcat]
        | some p =>
          exfalso
          have hp : p.1 = c0 := by simpa using List.find?_some hfind
          have : acc.any (fun p => p.1 = c0) = true := by
            rw [List.any_eq_true]
            exact ⟨p, List.mem_of_find?_eq_some hfind, by simp [hp]⟩
          exact hany this
    · -- the updated key is not the one being looked up
      have hne : (some c0 == some c) = false := by simp [hc]
      by_cases hany : acc.any (fun p => p.1 = c0) = true
      · rw [show addToCategories acc it
            = acc.map (fun p => if p.1 = c0 then (p.1, p.2 ++ [it]) else p) by
            simp [addToCategories, hcat, hany]]
        unfold dictEntries
        rw [find?_addToCategories_update]
        cases hfind : acc.find? (fun p => p.1 = c) with
        | none => simp [hcat, hc]
        | some p =>
          have hp : p.1 = c := by simpa using List.find?_some hfind
          have hpc : ¬ p.1 = c0 := by rw [hp]; intro hh; exact hc hh.symm
          simp [hcat, hpc, hc]
      · rw [show addToCategories acc it = acc ++ [(c0, [it])] by
            simp [addToCategories, hcat, hany]]
        unfold dictEntries
        rw [List.find?_append]
        cases hfind : acc.find? (fun p => p.1 = c) with
        | none => simp [hcat, hc]
        | some p => simp [hcat, hc]

/-- Folding items into the categories dict appends exactly the items of each
category, in input order. -/
theorem dictEntries_fold (pre : List CollectionItem)
    (acc : List (String × List CollectionItem)) (c : String) :
    dictEntries (pre.foldl addToCategories acc) c
      = dictEntries acc c ++ itemsWithCategory c pre := by
  induction pre generalizing acc with
  | nil => simp [itemsWithCategory]
  | cons it rest ih =>
    rw [List.foldl_cons, ih, dictEntries_add]
    by_cases hcat : it.category = some c
    · simp [itemsWithCategory, List.filter_cons, hcat]
    · simp [itemsWithCategory, List.filter_cons, hcat]

/-- The categories dict maps every category to exactly the input items that
carry it, in input order. -/
theorem categoriesDict_entries (items : List CollectionItem) (c : String) :
    dictEntries (categoriesDict items) c = itemsWithCategory c items := by
  rw [categoriesDict, dictEntries_fold]
  simp [dictEntries]

/-- The step `addToCategories` keeps the dict's keys distinct. -/
theorem addToCategories_keys_nodup (acc : List (String × List CollectionItem))
    (it : CollectionItem) (h : (acc.map Prod.fst).Nodup) :
    ((addToCategories acc it).map Prod.fst).Nodup := by
  cases hcat : it.category with
  | none => simpa [addToCategories, hcat] using h
  | some c =>
    by_cases hany : acc.any (fun p => p.1 = c) = true
    · rw [show addToCategories acc it
          = acc.map (fun p => if p.1 = c then (p.1, p.2 ++ [it]) else p) by
          simp [addToCategories, hcat, hany]]
      rw [List.map_map]
      rw [show (Prod.fst ∘ fun p : String × List CollectionItem =>
          if p.1 = c then (p.1, p.2 ++ [it]) else p) = Prod.fst from
        funext fun p => addToCategories_updKey c it p]
      exact h
    · rw [show addToCategories acc it = acc ++ [(c, [it])] by
          simp [addToCategories, hcat, hany]]
      rw [List.map_append]
      rw [List.nodup_append]
      refine ⟨h, List.nodup_singleton c, ?_⟩
      intro a ha hb
      simp at hb
      subst hb
      apply hany
      rw [List.any_eq_true]
      rw [List.mem_map] at ha
      obtain ⟨p, hp, hpa⟩ := ha
      exact ⟨p, hp, by simp [hpa]⟩

/-- The categories dict has distinct keys. -/
theorem categoriesDict_keys_nodup (items : List CollectionItem) :
    (((categoriesDict items)).map Prod.fst).Nodup := by
  rw [categoriesDict]
  generalize hacc : ([] : List (String × List CollectionItem)) = acc
  have hn : (acc.map Prod.fst).Nodup := by rw [← hacc]; exact List.nodup_nil
  clear hacc
  induction items generalizing acc with
  | nil => exact hn
  | cons it rest ih => exact ih _ (addToCategories_keys_nodup acc it hn)

/-- In a list with distinct keys, `find?` on a member's key returns that
member. -/
theorem find?_of_mem_nodup_keys (l : List (String × List CollectionItem))
    (sec : String × List CollectionItem) (h : (l.map Prod.fst).Nodup) (hm : sec ∈ l) :
    l.find? (fun p => p.1 = sec.1) = some sec := by
  induction l with
  | nil => cases hm
  | cons q rest ih =>
    rw [List.map_cons, List.nodup_cons] at h
    rcases List.mem_cons.mp hm with heq | hmem
    · subst heq
      exact List.find?_cons_of_pos rest (by simp)
    · have hq : ¬ (q.1 = sec.1) := by
        intro hh
        apply h.1
        rw [List.mem_map]
        exact ⟨sec, hmem, hh.symm⟩
      rw [List.find?_cons_of_neg rest (by simpa using hq)]
      exact ih h.2 hmem

/-- Claim C5 as stated: sections appear in the declared order of
`config.categories` (restricted to the categories present) and each section's
items are sorted by size descending. -/
def c5_claimAsStated : Prop :=
  ∀ (configCategories : List String) (items : List CollectionItem),
    (categorySections items).map Prod.fst
        = configCategories.filter (fun c => items.any (fun it => it.category = some c))
    ∧ ∀ sec ∈ categorySections items,
        sec.2.Sorted (fun a b : CollectionItem => b.size ≤ a.size)

/-- C5 counterexample: with `config.categories = ["zebra", "apple"]` and one
item in each category, the renderer emits the sections in alphabetical order
`["apple", "zebra"]`, not the declared order — the source sorts
`categories.items()` by name and never consults the config. -/
theorem c5_sections_not_config_order : ¬ c5_claimAsStated := by
  intro h
  have h1 := (h ["zebra", "apple"]
    [mkItem "z" "/c/z" 1 Option.none (some "zebra"),
     mkItem "a" "/c/a" 2 Option.none (some "apple")]).1
  exact absurd h1 (by decide)

/-- C5 amended: category sections are iterated in lexicographic order of the
category name (the dict sorted by key; the declared `config.categories` order
plays no role), and within each section the items appear exactly in the order
of the input item list (the renderer applies no size sort of its own); the
sections are a permutation of the insertion-ordered category dict. -/
theorem c5_sections_sorted_and_filter (items : List CollectionItem) :
    ((categorySections items).map Prod.fst).Pairwise
        (fun a b => charListLE a.data b.data = true)
    ∧ (∀ sec ∈ categorySections items, sec.2 = itemsWithCategory sec.1 items)
    ∧ (categorySections items).Perm (categoriesDict items) := by
  have hperm : (categorySections items).Perm (categoriesDict items) :=
    List.perm_insertionSort sectionLE (categoriesDict items)
  refine ⟨?_, ?_, hperm⟩
  · have hs : (categorySections items).Sorted sectionLE :=
      List.sorted_insertionSort sectionLE (categoriesDict items)
    exact List.Pairwise.map Prod.fst (fun a b hab => hab) hs
  · intro sec hsec
    have hmem : sec ∈ categoriesDict items := hperm.mem_iff.mp hsec
    have hkeys : ((categoriesDict items).map Prod.fst).Nodup :=
      categoriesDict_keys_nodup items
    have hfind := find?_of_mem_nodup_keys (categoriesDict items) sec hkeys hmem
    have hentries := categoriesDict_entries items sec.1
    unfold dictEntries at hentries
    rw [hfind] at hentries
    exact hentries

/-- Concrete item list for the C5 witness. -/
def c5items : List CollectionItem :=
  [mkItem "z" "/c/z" 1 Option.none (some "zebra"),
   mkItem "a" "/c/a" 2 Option.none (some "apple")]

/-- Witness for C5 amended: the first rendered section of the two-category
fixture holds exactly the input items of its category. -/
theorem c5_sections_sorted_and_filter_witness :
    [mkItem "a" "/c/a" 2 Option.none (some "apple")] = itemsWithCategory "apple" c5items := by
  have hm : (("apple", [mkItem "a" "/c/a" 2 Option.none (some "apple")]) :
        String × List CollectionItem) ∈ categorySections c5items := by
    rw [show categorySections c5items
        = [("apple", [mkItem "a" "/c/a" 2 Option.none (some "apple")]),
           ("zebra", [mkItem "z" "/c/z" 1 Option.none (some "zebra")])] from rfl]
    exact List.mem_cons_self _ _
  exact (c5_sections_sorted_and_filter c5items).2.1 _ hm

/-! ## Claim C9 -/

/-- The description recorded at a path: `none` when no item has the path,
otherwise the first such item's description. -/
def descAt (items : List CollectionItem) (p : String) : Option (Option String) :=
  (items.find? (fun it => it.path = p)).map (fun it => it.description)

/-- Snapshot monotonicity as the code guarantees it: every path with a
non-null, NON-EMPTY description keeps that description. -/
def descMono (a b : List CollectionItem) : Prop :=
  ∀ p d, d ≠ "" → descAt a p = some (some d) → descAt b p = some (some d)

instance : IsTrans (List CollectionItem) descMono :=
  ⟨fun _ _ _ hab hbc p d hd h => hbc p d hd (hab p d hd h)⟩

/-- Paths of the successfully described tasks, one per dispatched item. -/
def successPaths (outs : List TaskOutcome) : List String :=
  outs.filterMap (fun o => match o with
    | TaskOutcome.success r => some r.path
    | TaskOutcome.failure _ => Option.none)

/-- A merge leaves every other path's first item untouched. -/
theorem find?_mergeResult_ne (items : List CollectionItem) (r : DescResult)
    (p : String) (hp : p ≠ r.path) :
    (mergeResult items r).find? (fun it => it.path = p)
      = items.find? (fun it => it.path = p) := by
  induction items with
  | nil => rfl
  | cons it rest ih =>
    by_cases hit : it.path = r.path
    · rw [show mergeResult (it :: rest) r
          = { it with description := some r.description, category := some r.category }
              :: rest by simp [mergeResult, hit]]
      have hq : ¬ (it.path = p) := by
        intro hh
        exact hp (hh ▸ hit.symm ▸ rfl)
      rw [List.find?_cons_of_neg rest (by simpa using hq),
          List.find?_cons_of_neg rest (by simpa using hq)]
    · rw [show mergeResult (it :: rest) r = it :: mergeResult rest r by
          simp [mergeResult, hit]]
      by_cases hq : it.path = p
      · rw [List.find?_cons_of_pos (mergeResult rest r) (by simpa using hq),
            List.find?_cons_of_pos rest (by simpa using hq)]
      · rw [List.find?_cons_of_neg (mergeResult rest r) (by simpa using hq),
            List.find?_cons_of_neg rest (by simpa using hq)]
        exact ih

/-- A merge is monotone on non-empty descriptions, provided the merged path's
first item still needs a description. -/
theorem descMono_merge (items : List CollectionItem) (r : DescResult)
    (hclean : ∀ it, items.find? (fun i => i.path = r.path) = some it →
      needsDescription it = true) :
    descMono items (mergeResult items r) := by
  intro p d hd h
  by_cases hp : p = r.path
  · subst hp
    unfold descAt at h
    cases hfind : items.find? (fun it => it.path = r.path) with
    | none => rw [hfind] at h; simp at h
    | some it =>
      rw [hfind] at h
      have hdesc : it.description = some d := by simpa using h
      have hneeds := hclean it hfind
      have : d = "" := by simpa [needsDescription, hdesc] using hneeds
      exact absurd this hd
  · unfold descAt
    rw [find?_mergeResult_ne items r p hp]
    exact h

/-- In a list with distinct paths, `find?` on a member's path returns that
member. -/
theorem find?_path_of_mem (items : List CollectionItem) (jt : CollectionItem)
    (h : (items.map (fun it => it.path)).Nodup) (hm : jt ∈ items) :
    items.find? (fun i => i.path = jt.path) = some jt := by
  induction items with
  | nil => cases hm
  | cons q rest ih =>
    rw [List.map_cons, List.nodup_cons] at h
    rcases List.mem_cons.mp hm with heq | hmem
    · subst heq
      exact List.find?_cons_of_pos rest (by simp)
    · have hq : ¬ (q.path = jt.path) := by
        intro hh
        apply h.1
        rw [List.mem_map]
        exact ⟨jt, hmem, hh.symm⟩
      rw [List.find?_cons_of_neg rest (by simpa using hq)]
      exact ih h.2 hmem

/-- The snapshots of a valid describer run form a `descMono` chain. -/
theorem describeSnapshots_chain (items : List CollectionItem) (outs : List TaskOutcome)
    (hnd : (successPaths outs).Nodup)
    (hclean : ∀ p ∈ successPaths outs, ∀ it,
        items.find? (fun i => i.path = p) = some it → needsDescription it = true) :
    List.Chain' descMono (items :: describeSnapshots items outs) := by
  induction outs generalizing items with
  | nil => simp [describeSnapshots]
  | cons o rest ih =>
    cases o with
    | failure q =>
      exact ih items hnd hclean
    | success r =>
      rw [show describeSnapshots items (TaskOutcome.success r :: rest)
          = mergeResult items r :: describeSnapshots (mergeResult items r) rest from rfl]
      rw [List.chain'_cons]
      have hcons := List.nodup_cons.mp hnd
      constructor
      · exact descMono_merge items r
          (fun it hf => hclean r.path (List.mem_cons_self _ _) it hf)
      · apply ih (mergeResult items r) hcons.2
        intro p hp it hf
        have hpne : p ≠ r.path := fun hh => hcons.1 (hh ▸ hp)
        apply hclean p (List.mem_cons_of_mem _ hp) it
        rw [← find?_mergeResult_ne items r p hpne]
        exact hf

/-- Claim C9 as stated: across consecutive snapshots of a describer run, every
path with a non-null description (including the empty string) keeps it. -/
def c9_claimAsStated : Prop :=
  ∀ (items : List CollectionItem) (outs : List TaskOutcome),
    (items.map (fun it => it.path)).Nodup →
    (successPaths outs).Nodup →
    (∀ p ∈ successPaths outs, ∃ it ∈ items, it.path = p ∧ needsDescription it = true) →
    (describeSnapshots items outs).Chain'
      (fun a b => ∀ p d, descAt a p = some (some d) → descAt b p = some (some d))

/-- Run fixture for C9: one item whose description is the empty string (the
code counts it as needing a description) and one undescribed item. -/
def c9items : List CollectionItem :=
  [mkItem "one" "/c/one" 1 (some "") Option.none,
   mkItem "two" "/c/two" 2 Option.none Option.none]

/-- Two successful tasks for the C9 fixture, completing out of order. -/
def c9outs : List TaskOutcome :=
  [TaskOutcome.success ⟨"/c/two", "X", "misc"⟩,
   TaskOutcome.success ⟨"/c/one", "Y", "misc"⟩]

/-- First on-disk snapshot of the fixture run. -/
def c9snap1 : List CollectionItem :=
  [mkItem "one" "/c/one" 1 (some "") Option.none,
   mkItem "two" "/c/two" 2 (some "X") (some "misc")]

/-- Second on-disk snapshot of the fixture run. -/
def c9snap2 : List CollectionItem :=
  [mkItem "one" "/c/one" 1 (some "Y") (some "misc"),
   mkItem "two" "/c/two" 2 (some "X") (some "misc")]

/-- C9 counterexample: an item whose description is the empty string — non-null,
so the claim covers it — is in the describer's work list and is overwritten
between two consecutive mid-run snapshots. -/
theorem c9_empty_description_overwritten : ¬ c9_claimAsStated := by
  intro h
  have hch := h c9items c9outs (by decide) (by decide) (by decide)
  rw [show describeSnapshots c9items c9outs = [c9snap1, c9snap2] from rfl] at hch
  have hrel := (List.chain'_cons.mp hch).1
  have hone := hrel "/c/one" "" (by rfl)
  exact absurd hone (by decide)

/-- C9 amended: during a describer run over items with distinct paths, with
each dispatched path completing at most once and every successfully described
path drawn from the work list, the snapshots (starting from the pre-run list)
are pairwise monotone: every path holding a non-null, NON-EMPTY description in
an earlier snapshot holds the same description in every later snapshot — each
save reflects a superset of all causally preceding saves.  (Empty-string
descriptions are re-dispatched by the code and may be overwritten.) -/
theorem c9_snapshots_monotone_amended (items : List CollectionItem)
    (outs : List TaskOutcome)
    (hpaths : (items.map (fun it => it.path)).Nodup)
    (hnd : (successPaths outs).Nodup)
    (hneeds : ∀ p ∈ successPaths outs, ∃ it ∈ items,
        it.path = p ∧ needsDescription it = true) :
    List.Pairwise descMono (items :: describeSnapshots items outs) := by
  have hclean : ∀ p ∈ successPaths outs, ∀ it,
      items.find? (fun i => i.path = p) = some it → needsDescription it = true := by
    intro p hp it hf
    obtain ⟨jt, hjt, hjp, hjneeds⟩ := hneeds p hp
    subst hjp
    rw [find?_path_of_mem items jt hpaths hjt] at hf
    cases hf
    exact hjneeds
  exact List.chain'_iff_pairwise.mp (describeSnapshots_chain items outs hnd hclean)

/-- Witness for C9 amended on the fixture run: the same run that refutes the
unamended claim satisfies the amended one. -/
theorem c9_snapshots_monotone_amended_witness :
    List.Pairwise descMono (c9items :: describeSnapshots c9items c9outs) :=
  c9_snapshots_monotone_amended c9items c9outs (by decide) (by decide) (by decide)
